import Mathlib

/-!
Verification of the tex2beam LaTeX document model and evaluation metrics.

Each definition below is a shallow embedding of a function of the
`tex2beam` Python package (file and line references in the doc comments).
Machine floats on exactly representable small rationals are modelled by `ℚ`;
Python `None` and caught exceptions are modelled by `Option`.
-/

namespace Tex2Beam

/-! ### Source cleaner (`tex2beam/utils.py`, `clean_texfile`) -/

/-- Characters removed by Python `str.strip()` with no argument. -/
def pyWhitespace : List Char := [' ', '\t', '\n', '\r', '\x0b', '\x0c']

/-- Model of Python `str.strip()`: remove leading and trailing whitespace. -/
def pyStrip (s : String) : String :=
  ⟨((s.toList.dropWhile (pyWhitespace.contains ·)).reverse.dropWhile
      (pyWhitespace.contains ·)).reverse⟩

/-- Model of `re.sub(r" +", " ", line)`: collapse each run of spaces to one space. -/
def collapseSpaces : List Char → List Char
  | [] => []
  | [c] => [c]
  | c₁ :: c₂ :: rest =>
    if c₁ = ' ' ∧ c₂ = ' ' then collapseSpaces (c₂ :: rest)
    else c₁ :: collapseSpaces (c₂ :: rest)

/-- String version of `collapseSpaces`. -/
def collapseSpacesStr (s : String) : String := ⟨collapseSpaces s.toList⟩

/-- Model of Python `str.startswith`: prefix test on the character lists. -/
def pyStartsWith (s pre : String) : Bool :=
  pre.toList.isPrefixOf s.toList

/-- Model of Python `str.split` on a single newline separator. -/
def splitNL : List Char → List (List Char)
  | [] => [[]]
  | c :: rest =>
    if c = '\n' then [] :: splitNL rest
    else
      match splitNL rest with
      | [] => [[c]]
      | h :: t => (c :: h) :: t

/-- Lines of a string, as produced by `texfile.split("\n")`. -/
def pySplitLines (s : String) : List String :=
  (splitNL s.toList).map (fun cs => (⟨cs⟩ : String))

/-- Model of joining the lines back together with single newlines. -/
def joinLines (lines : List String) : String :=
  ⟨List.intercalate ['\n'] (lines.map String.toList)⟩

/-- Line pipeline of `clean_texfile` (utils.py lines 24-32): keep lines that do
not start with the character `%`, strip each kept line, drop lines that are
empty after stripping, and collapse runs of spaces in each remaining line. -/
def cleanLines (lines : List String) : List String :=
  let t₁ := (lines.filter (fun l => !(pyStartsWith l "%"))).map pyStrip
  let t₂ := t₁.filter (fun l => decide (0 < l.length))
  t₂.map collapseSpacesStr

/-- Model of `clean_texfile` (utils.py lines 14-33): split on newlines, apply
the line pipeline, join with newlines. -/
def clean_texfile (texfile : String) : String :=
  joinLines (cleanLines (pySplitLines texfile))

/-! ### Consecutive-frame deduplication
(`tex2beam/classes/latex_presentation.py`, `remove_sequential_frames`) -/

/-- Model of `[c for c in previous_content if c in content]` (line 139): the
tokens of the earlier frame, with multiplicity, that occur in the later frame. -/
def commonContent (previous content : List String) : List String :=
  previous.filter (fun c => content.contains c)

/-- Deletion test of the dedup loop (latex_presentation.py lines 138-141):
`previous_frame and len(previous_content) > 0` and
`len(common_content) / len(previous_content) >= threshold`. -/
def delCond (threshold : ℚ) (prev content : List String) : Prop :=
  0 < prev.length ∧
    ((commonContent prev content).length : ℚ) / (prev.length : ℚ) ≥ threshold

instance (threshold : ℚ) (prev content : List String) :
    Decidable (delCond threshold prev content) :=
  inferInstanceAs (Decidable (0 < prev.length ∧
    ((commonContent prev content).length : ℚ) / (prev.length : ℚ) ≥ threshold))

/-- Loop body of `remove_sequential_frames` (latex_presentation.py lines
130-146) from iteration 1 on: `prev` is the token list of frame `prevIdx`, and
`rest` the remaining `(index, tokens)` pairs.  Returns the indices of the
deleted frames.  A frame is deleted when the ratio of its tokens occurring in
the next frame to its token count meets the threshold. -/
def rsfAux (threshold : ℚ) (prev : List String) (prevIdx : ℕ) :
    List (ℕ × List String) → List ℕ
  | [] => []
  | (i, content) :: rest =>
    (if delCond threshold prev content then [prevIdx] else []) ++
      rsfAux threshold content i rest

/-- Model of `remove_sequential_frames` (latex_presentation.py lines 126-146):
the frames are enumerated once; iteration 0 only records the first frame's
tokens, the remaining iterations run `rsfAux`.  Returns the indices of the
frames deleted from the tree. -/
def removeSequentialFramesDeleted (threshold : ℚ) (frames : List (List String)) :
    List ℕ :=
  match frames with
  | [] => []
  | c₀ :: rest => rsfAux threshold c₀ 0 (List.enumFrom 1 rest)

/-- Frames remaining in the tree after the deduplication pass, with their
original positions. -/
def removeSequentialFramesKept (threshold : ℚ) (frames : List (List String)) :
    List (ℕ × List String) :=
  frames.enum.filter
    (fun p => ¬ (removeSequentialFramesDeleted threshold frames).contains p.1)

/-! ### Element matcher and evaluation metrics (`tex2beam/metrics/utils.py`) -/

/-- Model of `list(dict.fromkeys(xs))` (utils.py lines 74-75): remove
duplicates while preserving first-occurrence order. -/
def pyDedup (l : List String) : List String :=
  l.foldl (fun acc x => if acc.contains x then acc else acc ++ [x]) []

/-- Score triple of a match record. -/
structure Score where
  precisionScore : ℚ
  recallScore : ℚ
  f1Score : ℚ
deriving DecidableEq

/-- One side of a match record: an element together with its index in the
deduplicated input list. -/
structure MatchElement where
  element : String
  index : ℕ
deriving DecidableEq

/-- Model of one entry of the `matches` list built by `match_elements`. -/
structure MatchRecord where
  candidate : MatchElement
  reference : MatchElement
  score : Score
deriving DecidableEq

/-- Model of Python `round` to an integer on an exact rational: round half to
even. -/
def pythonRound (q : ℚ) : ℤ :=
  let f := ⌊q⌋
  if q - (f : ℚ) < 1 / 2 then f
  else if 1 / 2 < q - (f : ℚ) then f + 1
  else if f % 2 = 0 then f else f + 1

/-- Model of Python `round(q, decimals)`. -/
def pyRoundTo (decimals : ℕ) (q : ℚ) : ℚ :=
  (pythonRound (q * (10 ^ decimals : ℚ)) : ℚ) / (10 ^ decimals : ℚ)

/-- Cross product of deduplicated candidates and references with their indices
(utils.py lines 77-81): `(ct, i, rt, j)` for each candidate and reference. -/
def matchPermutations (cands refs : List String) : List (String × ℕ × String × ℕ) :=
  ((pyDedup cands).enum.map (fun p =>
    (pyDedup refs).enum.map (fun q => (p.2, p.1, q.2, q.1)))).flatten

/-- The batched (prediction, reference) list passed to the single
`calculate_bert_score` call (utils.py lines 84-87).  The call is made
unconditionally, before the selection loop, and the batch includes the
exactly-equal pairs. -/
def matchScorerBatch (cands refs : List String) : List (String × String) :=
  (matchPermutations cands refs).map (fun p => (p.1, p.2.2.1))

/-- Record constructor of the nested `append` helper (utils.py lines 90-101):
all three scores are rounded to `decimals` places. -/
def mkMatchRecord (decimals : ℕ) (cand : String) (i : ℕ) (ref : String) (j : ℕ)
    (p r f : ℚ) : MatchRecord :=
  ⟨⟨cand, i⟩, ⟨ref, j⟩,
    ⟨pyRoundTo decimals p, pyRoundTo decimals r, pyRoundTo decimals f⟩⟩

/-- Selection loop of `match_elements` (utils.py lines 103-115) over the
permutations paired with the scorer's output for each: an exactly-equal pair
is recorded with scores 1.0 and `continue`; otherwise the pair is recorded
with the scorer's scores when its f1 meets the threshold. -/
def selectMatches (decimals : ℕ) (f1Threshold : ℚ) :
    List ((String × ℕ × String × ℕ) × (ℚ × ℚ × ℚ)) → List MatchRecord
  | [] => []
  | ((cand, i, ref, j), (p, r, f)) :: rest =>
    if cand = ref then
      mkMatchRecord decimals cand i ref j 1 1 1 ::
        selectMatches decimals f1Threshold rest
    else if f ≥ f1Threshold then
      mkMatchRecord decimals cand i ref j p r f ::
        selectMatches decimals f1Threshold rest
    else selectMatches decimals f1Threshold rest

/-- Model of `match_elements` (utils.py lines 54-115).  The similarity scorer
(`calculate_bert_score`, an external collaborator) is a parameter; its single
batched invocation returns one `(precision, recall, f1)` triple per pair of
`matchScorerBatch`, in order. -/
def match_elements (scorer : String → String → ℚ × ℚ × ℚ)
    (candidate_elements reference_elements : List String)
    (f1_threshold : ℚ) (decimals : ℕ) : List MatchRecord :=
  let perms := matchPermutations candidate_elements reference_elements
  let bertscore := (matchScorerBatch candidate_elements reference_elements).map
    (fun pr => scorer pr.1 pr.2)
  selectMatches decimals f1_threshold (perms.zip bertscore)

/-- Confusion matrix `[[TP, FP], [FN, TN]]`. -/
structure ConfusionMatrix where
  TP : ℤ
  FP : ℤ
  FN : ℤ
  TN : ℤ
deriving DecidableEq

/-- Model of `calculate_confusion_matrix` (utils.py lines 118-141): `TP` is
the raw match count; `FP` and `FN` subtract the number of distinct matched
elements from the number of distinct input elements; `TN` stays 0. -/
def calculate_confusion_matrix (candidate_titles reference_titles : List String)
    (ms : List MatchRecord) : ConfusionMatrix :=
  { TP := (ms.length : ℤ)
    FP := (candidate_titles.dedup.length : ℤ) -
      ((ms.map (fun m => m.candidate.element)).dedup.length : ℤ)
    FN := (reference_titles.dedup.length : ℤ) -
      ((ms.map (fun m => m.reference.element)).dedup.length : ℤ)
    TN := 0 }

/-- Model of `calculate_kendall_tau` (utils.py lines 170-193), parameterized
by the underlying `scipy.stats.kendalltau` computation (an external library);
`none` models a NaN statistic. -/
def calculate_kendall_tau (kendall : List ℕ → List ℕ → Option ℚ)
    (ms : List MatchRecord) (decimals : ℕ) : ℚ :=
  if ms.length = 1 then 1
  else
    match kendall (ms.map (fun m => m.candidate.index))
        (ms.map (fun m => m.reference.index)) with
    | none => 0
    | some t => pyRoundTo decimals t

/-- Ordered pairs of distinct positions of a list, earlier element first. -/
def listPairs {α : Type} : List α → List (α × α)
  | [] => []
  | x :: xs => xs.map (fun y => (x, y)) ++ listPairs xs

/-- Modelled from the spec: the underlying Kendall rank-correlation statistic
(`scipy.stats.kendalltau`, an external library absent from the repository),
restricted to equal-length tie-free index sequences of length at least two,
where tau equals (concordant − discordant) / (n(n−1)/2); on other inputs it
abstains with `none` (in particular the undefined/NaN cases). -/
def tieFreeKendallTau (xs ys : List ℕ) : Option ℚ :=
  if xs.length = ys.length ∧ 2 ≤ xs.length then
    let ps := listPairs (xs.zip ys)
    if ps.any (fun pq => pq.1.1 = pq.2.1 ∨ pq.1.2 = pq.2.2) then none
    else
      let conc := (ps.filter (fun pq =>
        (pq.1.1 < pq.2.1 ∧ pq.1.2 < pq.2.2) ∨
          (pq.2.1 < pq.1.1 ∧ pq.2.2 < pq.1.2))).length
      some (((conc : ℚ) - ((ps.length - conc : ℕ) : ℚ)) / (ps.length : ℚ))
  else none

/-! ### Frame access (`latex_presentation.py`, `frame` and `slide`) -/

/-- Model of `LatexPresentation.frame` (latex_presentation.py lines 159-172):
`index not in range(self.frame_count)` logs an error and returns `None`;
otherwise `self.frames[index]` is returned.  A presentation is modelled by its
current list of frames. -/
def frame {α : Type} (frames : List α) (index : ℤ) : Option α :=
  if 0 ≤ index ∧ index < (frames.length : ℤ) then frames.get? index.toNat
  else none

/-- Model of `LatexPresentation.slide` (latex_presentation.py lines 148-157):
alias for `frame`. -/
def slide {α : Type} (frames : List α) (index : ℤ) : Option α :=
  frame frames index

/-! ### Frame title resolution (`latex_presentation.py`, `get_frame_title`) -/

/-- Model of a Beamer frame node as consumed by `get_frame_title`: whether
`frame.titlepage` finds a title-page marker node, the frame's argument list
(`frame.args`, each argument's `.string`, `none` when that is not a string —
the caught `TypeError` path), and the text segments of a nested
`frame.frametitle` command when one exists. -/
structure TFrame where
  titlepage : Bool
  args : List (Option String)
  frametitle : Option (List String)

/-- Python truthiness of the optional document title (`if self.title`): an
absent title and the empty string are falsy. -/
def pyTruthyOpt (t : Option String) : Bool :=
  match t with
  | some s => !(s == "")
  | none => false

/-- Model of Python `needle in hay` on strings: substring containment. -/
def strContains (hay needle : String) : Bool :=
  hay.toList.tails.any (fun t => needle.toList.isPrefixOf t)

/-- Model of `get_frame_title` (latex_presentation.py lines 174-210): document
title for the title-page frame; else the frame's first argument string (with a
`\titlepage` marker falling back to the document title); else the first text
segment of a nested `frametitle`; else `None`.  Caught exceptions (non-string
argument, missing text segment) yield `None`. -/
def get_frame_title (docTitle : Option String) (f : TFrame) : Option String :=
  if pyTruthyOpt docTitle ∧ f.titlepage then docTitle
  else
    match f.args with
    | arg :: _ =>
      match arg with
      | none => none
      | some s =>
        if strContains s "\\titlepage" then
          if pyTruthyOpt docTitle then docTitle else none
        else some s
    | [] =>
      match f.frametitle with
      | some (seg :: _) => some seg
      | some [] => none
      | none => none

/-! ### Section extraction (`latex_base.py`, `LatexBase.sections`) -/

/-- Node of the document's descendant stream as dispatched by `sections`
(latex_base.py lines 146-213): either a raw string fragment, or a TexNode
carrying its command name, its `.string` (used for section and subsection
titles) and its re-serialization `str(node)`. -/
inductive DNode where
  | str (s : String)
  | tex (name : String) (string : String) (serialized : String)
deriving DecidableEq

/-- Inline annotation commands appended as their literal serialization
(latex_base.py lines 105-118). -/
def sectionLabels : List String :=
  ["label", "footnote", "cite", "citet", "citep", "ref", "$", "emph",
   "textit", "textbf", "paragraph", "tilde"]

/-- Single-token math symbols wrapped in `$...$` (latex_base.py lines
119-135). -/
def sectionSymbols : List String :=
  ["in", "alpha", "phi", "perp", "cdot", "times", "log", "exp", "right",
   "sqrt", "theta", "sum", "Phi", "tau", "Theta"]

/-- Commands that set `parse = False` (latex_base.py lines 202-207). -/
def sectionStops : List String :=
  ["bibliography", "bibliographystyle", "appendix"]

/-- Python `node.strip("\n")`: strip newline characters from both ends. -/
def stripNL (s : String) : String :=
  ⟨((s.toList.dropWhile (· = '\n')).reverse.dropWhile (· = '\n')).reverse⟩

/-- One subsection accumulator (`{"section": ..., "content": "", ...}`). -/
structure Subsection where
  title : String
  content : String
deriving DecidableEq

/-- One section accumulator.  The `figures` field is omitted: no branch of the
loop ever appends to it. -/
structure Section where
  title : String
  content : String
  subsections : List Subsection
deriving DecidableEq

/-- Mutable state of the `sections` scan: the accumulated sections and the
`parse` / `is_section` / `is_subsection` flags. -/
structure SState where
  sections : List Section
  parse : Bool
  isSection : Bool
  isSubsection : Bool
deriving DecidableEq

/-- Update the last element of a list; no-op on the empty list (the Python
`sections[-1]` IndexError is caught and logged). -/
def updateLast {α : Type} (f : α → α) : List α → List α
  | [] => []
  | [x] => [f x]
  | x :: xs => x :: updateLast f xs

/-- Whether a node is a TexNode with the given name. -/
def isTexNamed (n : DNode) (nm : String) : Bool :=
  match n with
  | .tex name _ _ => name == nm
  | .str _ => false

/-- The nested `append` helper (latex_base.py lines 137-144): append `data` to
the active section's or subsection's content; failures (no accumulator) are
caught and ignored. -/
def appendData (st : SState) (data : String) : SState :=
  if st.isSection then
    { st with
      sections :=
        updateLast (fun sec => { sec with content := sec.content ++ data })
          st.sections }
  else if st.isSubsection then
    { st with
      sections :=
        updateLast
          (fun sec =>
            { sec with
              subsections :=
                updateLast
                  (fun sub => { sub with content := sub.content ++ data })
                  sec.subsections })
          st.sections }
  else st

/-- Loop body of `sections` (latex_base.py lines 146-213) for one descendant
node: a `section` node re-enables parsing; while `parse` is unset all nodes
are skipped; then the node is dispatched on its type and name. -/
def sectionsStep (st0 : SState) (n : DNode) : SState :=
  let st := if isTexNamed n "section" then { st0 with parse := true } else st0
  if !st.parse then st
  else
    match n with
    | .str s => appendData st (stripNL s)
    | .tex name string serialized =>
      if name == "section" then
        { st with sections := st.sections ++ [⟨string, "", []⟩],
                  isSection := true, isSubsection := false }
      else if name == "subsection" then
        { st with
          sections :=
            updateLast
              (fun sec =>
                { sec with subsections := sec.subsections ++ [⟨string, ""⟩] })
              st.sections,
          isSection := false, isSubsection := true }
      else if sectionLabels.contains name then appendData st (stripNL serialized)
      else if name == "figure" then appendData st serialized
      else if name == "align" || name == "align*" then appendData st serialized
      else if sectionSymbols.contains name then
        appendData st ("$" ++ serialized ++ "$")
      else if sectionStops.contains name then { st with parse := false }
      else appendData st serialized

/-- Model of `LatexBase.sections`: fold the loop body over the document's
descendant stream, starting with no sections and all flags unset. -/
def sectionsOf (nodes : List DNode) : List Section :=
  (nodes.foldl sectionsStep ⟨[], false, false, false⟩).sections

/-! ### Bibliography items (`latex_base.py`, `LatexBase.bibitems`) -/

/-- Node of the bibliography environment's child stream: a TexNode carrying
its name and first-argument string (`str(node.args[0].string)`), or a raw
string fragment. -/
inductive BNode where
  | node (name : String) (arg : String)
  | text (s : String)
deriving DecidableEq

/-- The `isinstance(node, TexNode) and node.name == "bibitem"` test. -/
def isBibitem (n : BNode) : Bool :=
  match n with
  | .node name _ => name == "bibitem"
  | .text _ => false

/-- The citation key `str(node.args[0].string)` of a node. -/
def bibKey (n : BNode) : String :=
  match n with
  | .node _ arg => arg
  | .text _ => ""

/-- Python dict assignment `items[key] = v`: overwrite the entry in place when
the key exists, otherwise append a new entry. -/
def dictSet (d : List (String × List BNode)) (k : String) (v : List BNode) :
    List (String × List BNode) :=
  if d.any (fun p => p.1 == k) then
    d.map (fun p => if p.1 == k then (k, v) else p)
  else d ++ [(k, v)]

/-- Python `items[key].append(n)`. -/
def dictAppend (d : List (String × List BNode)) (k : String) (n : BNode) :
    List (String × List BNode) :=
  d.map (fun p => if p.1 == k then (p.1, p.2 ++ [n]) else p)

/-- Python `items[k]` lookup (`None` when absent). -/
def dictFind (d : List (String × List BNode)) (k : String) : Option (List BNode) :=
  (d.find? (fun p => p.1 == k)).map (fun p => p.2)

/-- Loop state of `bibitems`: the `items` dict, the `start_parse` flag and the
current `key` (unset before the first bibitem, guarded by `start_parse`). -/
structure BState where
  items : List (String × List BNode)
  startParse : Bool
  key : String
deriving DecidableEq

/-- Loop body of `bibitems` (latex_base.py lines 44-53): a `bibitem` node
resets its key's entry to `[node]`, records the key and sets `start_parse`;
then, whenever `start_parse` is set, the current node is appended to the
current key's entry — so a `bibitem` node is appended a second time to its own
fresh entry. -/
def bibitemsStep (st0 : BState) (n : BNode) : BState :=
  let st :=
    if isBibitem n then
      BState.mk (dictSet st0.items (bibKey n) [n]) true (bibKey n)
    else st0
  if st.startParse then { st with items := dictAppend st.items st.key n }
  else st

/-- Model of `LatexBase.bibitems` (latex_base.py lines 38-54) over the
bibliography environment's node stream. -/
def bibitems (nodes : List BNode) : List (String × List BNode) :=
  (nodes.foldl bibitemsStep ⟨[], false, ""⟩).items

/-! ### Import resolution (`latex_base.py`, `LatexBase.resolve_imports`) -/

/-- Node of a parsed LaTeX tree as seen by the import resolver: text, a
command with its string arguments, an environment with children, or the root
node of a parsed file (what a recursive `resolve_imports` call returns and
`replace_with` receives when called without unpacking). -/
inductive LNode where
  | text (s : String)
  | cmd (name : String) (args : List String)
  | env (name : String) (children : List LNode)
  | root (children : List LNode)

/-- Python `str.endswith`: suffix test on the character lists. -/
def pyEndsWith (s suffix : String) : Bool :=
  suffix.toList.reverse.isPrefixOf s.toList.reverse

/-- `check_filename` (latex_base.py lines 340-343): append `.tex` when the
name does not already end with it. -/
def check_filename (filename : String) : String :=
  if pyEndsWith filename ".tex" then filename else filename ++ ".tex"

/-- Model of `os.path.dirname`: everything before the last `/`, or the empty
string. -/
def dirName (path : String) : String :=
  if path.toList.contains '/' then
    ⟨(((path.toList.reverse.dropWhile (· ≠ '/'))).drop 1).reverse⟩
  else ""

/-- Model of `os.path.join(cwd, filename)` for relative filenames. -/
def joinPath (cwd filename : String) : String :=
  if cwd = "" then filename else cwd ++ "/" ++ filename

mutual

/-- One resolution pass of `resolve_imports` (latex_base.py lines 345-373) for
the directive `kind`, over a single node: a directive node of this kind is
replaced by the referenced file's resolved content — spliced in place for
`subimport` (path `args[0] + args[1]`), `import` and `include`
(`replace_with(*resolved.contents)`), but wrapped as the resolved node itself
for `input` (`replace_with(resolved)`, no unpacking, path joined to the
including file's directory); other nodes are kept, recursing into children.
`resolveFile` is the recursive resolution of a referenced path; `none` models
an uncaught error (missing file, missing argument). -/
def resolvePassNode (resolveFile : String → Option (List LNode)) (kind : String)
    (cwd : String) : LNode → Option (List LNode)
  | .text s => some [.text s]
  | .cmd name args =>
    if name == kind then
      if kind == "subimport" then
        match args with
        | a :: b :: _ => resolveFile (a ++ b)
        | _ => none
      else if kind == "input" then
        match args with
        | a :: _ => do
          let rs ← resolveFile (joinPath cwd (check_filename a))
          some [LNode.root rs]
        | [] => none
      else
        match args with
        | a :: _ => resolveFile (check_filename a)
        | [] => none
    else some [.cmd name args]
  | .env name children => do
    let cs ← resolvePassList resolveFile kind cwd children
    some [.env name cs]
  | .root children => do
    let cs ← resolvePassList resolveFile kind cwd children
    some [.root cs]

/-- One resolution pass over a node list, splicing each node's replacement. -/
def resolvePassList (resolveFile : String → Option (List LNode)) (kind : String)
    (cwd : String) : List LNode → Option (List LNode)
  | [] => some []
  | n :: rest => do
    let rs ← resolvePassNode resolveFile kind cwd n
    let rest' ← resolvePassList resolveFile kind cwd rest
    some (rs ++ rest')

end

/-- Model of `resolve_imports` (latex_base.py lines 333-375): four passes, in
order `subimport`, `import`, `include`, `input`; a referenced file is read and
fully resolved recursively with its own directory as `cwd`.  `fuel` bounds the
file recursion depth (the Python code has no cycle detection and would recurse
until a file-system error).  The final serialize-clean-reparse of line 375
normalizes whitespace only and is not modelled. -/
def resolve_imports (fs : String → Option (List LNode)) :
    ℕ → String → List LNode → Option (List LNode)
  | 0, _, _ => none
  | fuel + 1, cwd, nodes => do
    let n₁ ← resolvePassList (fun p => do
      let c ← fs p
      resolve_imports fs fuel (dirName p) c) "subimport" cwd nodes
    let n₂ ← resolvePassList (fun p => do
      let c ← fs p
      resolve_imports fs fuel (dirName p) c) "import" cwd n₁
    let n₃ ← resolvePassList (fun p => do
      let c ← fs p
      resolve_imports fs fuel (dirName p) c) "include" cwd n₂
    resolvePassList (fun p => do
      let c ← fs p
      resolve_imports fs fuel (dirName p) c) "input" cwd n₃

theorem mem_rsfAux_enumFrom (threshold : ℚ) :
    ∀ (rest : List (List String)) (prev : List String) (n k : ℕ),
      k ∈ rsfAux threshold prev n (List.enumFrom (n + 1) rest) ↔
        ∃ a b, (prev :: rest).get? (k - n) = some a ∧
          (prev :: rest).get? (k - n + 1) = some b ∧ n ≤ k ∧
          delCond threshold a b := by
  intro rest
  induction rest with
  | nil =>
    intro prev n k
    simp only [List.enumFrom, rsfAux, List.not_mem_nil, false_iff]
    rintro ⟨a, b, ha, hb, hnk, -⟩
    rcases hkn : k - n with _ | j
    · rw [hkn] at hb; simp at hb
    · rw [hkn] at ha; simp at ha
  | cons c rest ih =>
    intro prev n k
    rw [List.enumFrom]
    simp only [rsfAux, List.mem_append]
    rw [ih c (n + 1) k]
    constructor
    · rintro (h | ⟨a, b, ha, hb, hnk, hcond⟩)
      · rw [List.mem_ite_nil_right] at h
        obtain ⟨hcond, hk⟩ := h
        rw [List.mem_singleton] at hk
        subst hk
        exact ⟨prev, c, by simp, by simp, le_refl _, hcond⟩
      · refine ⟨a, b, ?_, ?_, by omega, hcond⟩
        · have : k - n = (k - (n + 1)) + 1 := by omega
          rw [this]; simpa using ha
        · have : k - n + 1 = (k - (n + 1) + 1) + 1 := by omega
          rw [this]; simpa using hb
    · rintro ⟨a, b, ha, hb, hnk, hcond⟩
      rcases hkn : k - n with _ | j
      · left
        rw [List.mem_ite_nil_right]
        rw [hkn] at ha hb
        obtain rfl : prev = a := by simpa using ha
        obtain rfl : c = b := by simpa using hb
        exact ⟨hcond, by rw [List.mem_singleton]; omega⟩
      · right
        refine ⟨a, b, ?_, ?_, by omega, hcond⟩
        · have : k - (n + 1) = j := by omega
          rw [this]
          rw [hkn] at ha; simpa using ha
        · have : k - (n + 1) + 1 = j + 1 := by omega
          rw [this]
          rw [hkn] at hb; simpa using hb

/-- Positional characterization of the deleted-frame set: frame `k` is deleted
exactly when a frame follows it, it has at least one token, and the ratio of
its tokens occurring in the following frame to its token count meets the
threshold. -/
theorem mem_removeSequentialFramesDeleted (threshold : ℚ)
    (frames : List (List String)) (k : ℕ) :
    k ∈ removeSequentialFramesDeleted threshold frames ↔
      ∃ a b, frames.get? k = some a ∧ frames.get? (k + 1) = some b ∧
        delCond threshold a b := by
  match frames with
  | [] => simp [removeSequentialFramesDeleted]
  | c₀ :: rest =>
    rw [removeSequentialFramesDeleted]
    have h := mem_rsfAux_enumFrom threshold rest c₀ 0 k
    rw [show (0 + 1 : ℕ) = 1 from rfl] at h
    rw [h]
    constructor
    · rintro ⟨a, b, ha, hb, -, hc⟩
      exact ⟨a, b, by simpa using ha, by simpa using hb, hc⟩
    · rintro ⟨a, b, ha, hb, hc⟩
      exact ⟨a, b, by simpa using ha, by simpa using hb, by omega, hc⟩

theorem delCond_nine_tenths (a b : List String) :
    delCond (9 / 10) a b ↔
      0 < a.length ∧ 9 * a.length ≤ 10 * (commonContent a b).length := by
  unfold delCond
  constructor
  · rintro ⟨hpos, hr⟩
    refine ⟨hpos, ?_⟩
    have hl : (0 : ℚ) < (a.length : ℚ) := by exact_mod_cast hpos
    rw [ge_iff_le, le_div_iff₀ hl] at hr
    have h10 : (9 : ℚ) * a.length ≤ 10 * (commonContent a b).length := by nlinarith
    exact_mod_cast h10
  · rintro ⟨hpos, hle⟩
    refine ⟨hpos, ?_⟩
    have hl : (0 : ℚ) < (a.length : ℚ) := by exact_mod_cast hpos
    rw [ge_iff_le, le_div_iff₀ hl]
    have h10 : (9 : ℚ) * a.length ≤ 10 * (commonContent a b).length := by
      exact_mod_cast hle
    nlinarith

/-- Claim C3: the confusion matrix has `TP` equal to the total number of
accepted match records (with multiplicity), `FP` the number of distinct
candidate elements minus the number of distinct matched candidate elements,
`FN` the analogue for references, and `TN = 0`. -/
theorem c3_confusion_matrix (candidate_titles reference_titles : List String)
    (ms : List MatchRecord) :
    (calculate_confusion_matrix candidate_titles reference_titles ms).TP
        = (ms.length : ℤ) ∧
      (calculate_confusion_matrix candidate_titles reference_titles ms).FP
        = (candidate_titles.toFinset.card : ℤ) -
          ((ms.map (fun m => m.candidate.element)).toFinset.card : ℤ) ∧
      (calculate_confusion_matrix candidate_titles reference_titles ms).FN
        = (reference_titles.toFinset.card : ℤ) -
          ((ms.map (fun m => m.reference.element)).toFinset.card : ℤ) ∧
      (calculate_confusion_matrix candidate_titles reference_titles ms).TN
        = 0 := by
  refine ⟨rfl, ?_, ?_, rfl⟩ <;>
    simp [calculate_confusion_matrix, List.card_toFinset]

theorem zip_self_map {α β : Type} (l : List α) (g : α → β) :
    l.zip (l.map g) = l.map (fun x => (x, g x)) := by
  induction l with
  | nil => rfl
  | cons hd tl ih => simp [ih]

theorem pyRoundTo_one (d : ℕ) : pyRoundTo d 1 = 1 := by
  have h : ((10 : ℚ) ^ d) = ((10 ^ d : ℤ) : ℚ) := by push_cast; ring
  have hne : ((10 : ℚ) ^ d) ≠ 0 := by positivity
  unfold pyRoundTo pythonRound
  rw [one_mul, h, Int.floor_intCast]
  simp only [sub_self]
  rw [if_pos (by norm_num)]
  rw [← h]
  exact div_self hne

theorem selectMatches_map_congr (d : ℕ) (thr : ℚ)
    (s₁ s₂ : String → String → ℚ × ℚ × ℚ)
    (h : ∀ a b, a ≠ b → s₁ a b = s₂ a b) :
    ∀ l : List (String × ℕ × String × ℕ),
      selectMatches d thr (l.map (fun p => (p, s₁ p.1 p.2.2.1))) =
        selectMatches d thr (l.map (fun p => (p, s₂ p.1 p.2.2.1))) := by
  intro l
  induction l with
  | nil => rfl
  | cons hd tl ih =>
    obtain ⟨c, i, r, j⟩ := hd
    by_cases hc : c = r
    · subst hc
      rcases h₁ : s₁ c c with ⟨p₁, r₁, f₁⟩
      rcases h₂ : s₂ c c with ⟨p₂, r₂, f₂⟩
      simp only [List.map_cons, h₁, h₂, selectMatches, if_pos rfl]
      rw [ih]
      simp
    · have hs : s₁ c r = s₂ c r := h c r hc
      rcases h₂ : s₂ c r with ⟨p₂, r₂, f₂⟩
      have h₁ : s₁ c r = (p₂, r₂, f₂) := by rw [hs, h₂]
      simp only [List.map_cons, h₁, h₂, selectMatches, if_neg hc]
      rw [ih]

theorem match_elements_eq_selectMatches (s : String → String → ℚ × ℚ × ℚ)
    (cands refs : List String) (thr : ℚ) (d : ℕ) :
    match_elements s cands refs thr d =
      selectMatches d thr ((matchPermutations cands refs).map
        (fun p => (p, s p.1 p.2.2.1))) := by
  unfold match_elements matchScorerBatch
  dsimp only
  rw [List.map_map, zip_self_map]
  simp only [Function.comp]

theorem selectMatches_eq_filterMap (d : ℕ) (thr : ℚ)
    (s : String → String → ℚ × ℚ × ℚ) :
    ∀ l : List (String × ℕ × String × ℕ),
      selectMatches d thr (l.map (fun p => (p, s p.1 p.2.2.1))) =
        l.filterMap (fun p =>
          if p.1 = p.2.2.1 then
            some (mkMatchRecord d p.1 p.2.1 p.2.2.1 p.2.2.2 1 1 1)
          else if (s p.1 p.2.2.1).2.2 ≥ thr then
            some (mkMatchRecord d p.1 p.2.1 p.2.2.1 p.2.2.2 (s p.1 p.2.2.1).1
              (s p.1 p.2.2.1).2.1 (s p.1 p.2.2.1).2.2)
          else none) := by
  intro l
  induction l with
  | nil => rfl
  | cons hd tl ih =>
    obtain ⟨c, i, r, j⟩ := hd
    rcases hs : s c r with ⟨p₁, r₁, f₁⟩
    simp only [List.map_cons, List.filterMap_cons]
    rw [hs]
    by_cases hc : c = r
    · simp only [selectMatches, if_pos hc, ih]
    · simp only [selectMatches, if_neg hc, ih]
      by_cases hf : thr ≤ f₁ <;> simp [hf, hs]

/-- Claim C4 (amended): every (candidate, reference) pair of the deduplicated
cross product whose strings are equal is recorded as a match with precision,
recall and f1 all 1.0, for arbitrary candidate and reference lists, any
threshold and any scorer, and the scorer's output for such a pair is never
consulted (any two scorers agreeing on the unequal pairs produce the same
matches); in particular matching `["Introduction"]`-style singleton lists
against themselves yields exactly one record with all scores 1.0.  However,
the one batched scorer call made by `match_elements` does receive every pair,
the exactly-equal ones included (see the counterexample), so the scorer is
invoked once, not zero times. -/
theorem c4_exact_match (s₁ s₂ : String → String → ℚ × ℚ × ℚ)
    (cands refs : List String) (thr : ℚ) (d : ℕ) (c : String)
    (h : ∀ a b, a ≠ b → s₁ a b = s₂ a b) :
    match_elements s₁ cands refs thr d = match_elements s₂ cands refs thr d ∧
      (∀ ce i re j, (ce, i, re, j) ∈ matchPermutations cands refs → ce = re →
        MatchRecord.mk ⟨ce, i⟩ ⟨re, j⟩ ⟨1, 1, 1⟩ ∈
          match_elements s₁ cands refs thr d) ∧
      match_elements s₁ [c] [c] thr d = [⟨⟨c, 0⟩, ⟨c, 0⟩, ⟨1, 1, 1⟩⟩] := by
  refine ⟨?_, ?_, ?_⟩
  · rw [match_elements_eq_selectMatches, match_elements_eq_selectMatches]
    exact selectMatches_map_congr d thr s₁ s₂ h _
  · intro ce i re j hmem hce
    rw [match_elements_eq_selectMatches, selectMatches_eq_filterMap,
      List.mem_filterMap]
    refine ⟨(ce, i, re, j), hmem, ?_⟩
    simp only [if_pos hce, mkMatchRecord, pyRoundTo_one]
  · have hd : pyDedup [c] = [c] := by simp [pyDedup]
    rcases hs : s₁ c c with ⟨p₁, r₁, f₁⟩
    simp only [match_elements, matchPermutations, matchScorerBatch, hd]
    simp [selectMatches, hs, mkMatchRecord, pyRoundTo_one, matchPermutations, hd]

/-- Claim C4 witness: the amended theorem applied at two equal constant
scorers and the concrete input `["Introduction"]` vs `["Introduction"]`. -/
theorem c4_exact_match_witness :
    match_elements (fun _ _ => ((0 : ℚ), (0 : ℚ), (0 : ℚ)))
        ["Introduction"] ["Introduction"] (6 / 10) 3
      = [⟨⟨"Introduction", 0⟩, ⟨"Introduction", 0⟩, ⟨1, 1, 1⟩⟩] :=
  (c4_exact_match (fun _ _ => ((0 : ℚ), (0 : ℚ), (0 : ℚ)))
    (fun _ _ => ((0 : ℚ), (0 : ℚ), (0 : ℚ))) ["Introduction"] ["Introduction"]
    (6 / 10) 3 "Introduction" (fun _ _ _ => rfl)).2.2

/-- Claim C4 counterexample: the batch handed to the single unconditional
`calculate_bert_score` call for candidates `["Introduction"]` and references
`["Introduction"]` is `[("Introduction", "Introduction")]`, not empty: the
similarity scorer is invoked (once, with the exactly-equal pair in its batch),
contradicting the claim that it is invoked zero times. -/
theorem c4_scorer_batch_counterexample :
    matchScorerBatch ["Introduction"] ["Introduction"]
        = [("Introduction", "Introduction")] ∧
      matchScorerBatch ["Introduction"] ["Introduction"] ≠ [] := by
  constructor <;> decide

/-- Claim C5 (amended): the rank-correlation wrapper returns 1.0 when there is
exactly one match, regardless of the underlying computation; returns 0.0
whenever the underlying Kendall tau is undefined (NaN); and otherwise returns
the underlying Kendall tau value rounded to `decimals` (default 3) decimal
places. -/
theorem c5_kendall_tau (kendall : List ℕ → List ℕ → Option ℚ)
    (ms : List MatchRecord) (d : ℕ) (t : ℚ) :
    (ms.length = 1 → calculate_kendall_tau kendall ms d = 1) ∧
      (ms.length ≠ 1 →
        kendall (ms.map (fun m => m.candidate.index))
            (ms.map (fun m => m.reference.index)) = none →
        calculate_kendall_tau kendall ms d = 0) ∧
      (ms.length ≠ 1 →
        kendall (ms.map (fun m => m.candidate.index))
            (ms.map (fun m => m.reference.index)) = some t →
        calculate_kendall_tau kendall ms d = pyRoundTo d t) := by
  refine ⟨fun h1 => ?_, fun h1 hn => ?_, fun h1 hs => ?_⟩
  · simp [calculate_kendall_tau, h1]
  · simp [calculate_kendall_tau, h1, hn]
  · simp [calculate_kendall_tau, h1, hs]

/-- Claim C5 witness: a single-match list gets tau 1.0. -/
theorem c5_kendall_tau_witness :
    calculate_kendall_tau tieFreeKendallTau
      [⟨⟨"a", 5⟩, ⟨"b", 9⟩, ⟨1, 1, 1⟩⟩] 3 = 1 :=
  (c5_kendall_tau tieFreeKendallTau [⟨⟨"a", 5⟩, ⟨"b", 9⟩, ⟨1, 1, 1⟩⟩] 3 0).1 rfl

/-- Claim C5 counterexample: with three matches whose candidate indices are
`[0, 1, 2]` and reference indices `[0, 2, 1]`, the underlying Kendall tau is
exactly 1/3, but the code returns `round(1/3, 3) = 0.333 ≠ 1/3`, so the
result is not "that Kendall's tau value". -/
theorem c5_kendall_tau_counterexample :
    tieFreeKendallTau [0, 1, 2] [0, 2, 1] = some (1 / 3) ∧
      calculate_kendall_tau tieFreeKendallTau
        [⟨⟨"a", 0⟩, ⟨"x", 0⟩, ⟨1, 1, 1⟩⟩,
         ⟨⟨"b", 1⟩, ⟨"y", 2⟩, ⟨1, 1, 1⟩⟩,
         ⟨⟨"c", 2⟩, ⟨"z", 1⟩, ⟨1, 1, 1⟩⟩] 3 = 333 / 1000 ∧
      (333 / 1000 : ℚ) ≠ 1 / 3 := by
  have htau : tieFreeKendallTau [0, 1, 2] [0, 2, 1] = some (1 / 3) := by
    simp [tieFreeKendallTau, listPairs, List.zip]
    norm_num
  have hround : pyRoundTo 3 (1 / 3) = 333 / 1000 := by
    have hfloor : ⌊(1 / 3 * 10 ^ 3 : ℚ)⌋ = 333 := by
      rw [Int.floor_eq_iff]
      norm_num
    simp only [pyRoundTo, pythonRound, hfloor]
    norm_num
  refine ⟨htau, ?_, by norm_num⟩
  rw [calculate_kendall_tau, if_neg (by decide)]
  have hmap1 : ([⟨⟨"a", 0⟩, ⟨"x", 0⟩, ⟨1, 1, 1⟩⟩,
      ⟨⟨"b", 1⟩, ⟨"y", 2⟩, ⟨1, 1, 1⟩⟩,
      ⟨⟨"c", 2⟩, ⟨"z", 1⟩, ⟨1, 1, 1⟩⟩] : List MatchRecord).map
        (fun m => m.candidate.index) = [0, 1, 2] := rfl
  have hmap2 : ([⟨⟨"a", 0⟩, ⟨"x", 0⟩, ⟨1, 1, 1⟩⟩,
      ⟨⟨"b", 1⟩, ⟨"y", 2⟩, ⟨1, 1, 1⟩⟩,
      ⟨⟨"c", 2⟩, ⟨"z", 1⟩, ⟨1, 1, 1⟩⟩] : List MatchRecord).map
        (fun m => m.reference.index) = [0, 2, 1] := rfl
  rw [hmap1, hmap2, htau]
  exact hround

/-- Claim C10: `frame(index)` (and its alias `slide(index)`) returns `None`
without raising whenever the integer index is outside `[0, frame_count)`, and
returns the index-th frame in document order otherwise. -/
theorem c10_frame_bounds {α : Type} (frames : List α) (index : ℤ) :
    (index < 0 ∨ (frames.length : ℤ) ≤ index → frame frames index = none) ∧
      (0 ≤ index → index < (frames.length : ℤ) →
        ∃ h : index.toNat < frames.length,
          frame frames index = some (frames.get ⟨index.toNat, h⟩)) ∧
      slide frames index = frame frames index := by
  refine ⟨fun h => ?_, fun h0 hlt => ?_, rfl⟩
  · rw [frame, if_neg]
    rintro ⟨hl, hr⟩
    rcases h with h | h <;> omega
  · have hn : index.toNat < frames.length := by omega
    refine ⟨hn, ?_⟩
    rw [frame, if_pos ⟨h0, hlt⟩, List.get?_eq_get hn]

/-- Claim C10 witness: a negative index yields `None`, an in-range index
yields the corresponding frame. -/
theorem c10_frame_bounds_witness :
    frame ["f0", "f1"] (-1) = none ∧ frame ["f0", "f1"] 1 = some "f1" := by
  constructor
  · exact (c10_frame_bounds ["f0", "f1"] (-1)).1 (Or.inl (by norm_num))
  · obtain ⟨h, heq⟩ := (c10_frame_bounds ["f0", "f1"] 1).2.1 (by norm_num) (by norm_num)
    rw [heq]
    rfl

/-- Claim C7: frame-title resolution follows first-match-wins priority: (a)
document title for the title-page frame of a titled document; (b) the frame
argument's string content, falling back to the document title (or `None` for
an untitled document) when it contains a `\titlepage` marker; (c) the first
text segment of a nested `frametitle`; (d) otherwise `None`; extraction
failures (non-string argument, empty text) yield `None` instead of raising. -/
theorem c7_frame_title (docTitle : Option String) (f : TFrame) :
    (pyTruthyOpt docTitle = true → f.titlepage = true →
      get_frame_title docTitle f = docTitle) ∧
      (∀ s rest, ¬(pyTruthyOpt docTitle = true ∧ f.titlepage = true) →
        f.args = some s :: rest → strContains s "\\titlepage" = false →
        get_frame_title docTitle f = some s) ∧
      (∀ s rest, ¬(pyTruthyOpt docTitle = true ∧ f.titlepage = true) →
        f.args = some s :: rest → strContains s "\\titlepage" = true →
        get_frame_title docTitle f =
          (if pyTruthyOpt docTitle then docTitle else none)) ∧
      (∀ rest, ¬(pyTruthyOpt docTitle = true ∧ f.titlepage = true) →
        f.args = none :: rest → get_frame_title docTitle f = none) ∧
      (∀ seg segs, ¬(pyTruthyOpt docTitle = true ∧ f.titlepage = true) →
        f.args = [] → f.frametitle = some (seg :: segs) →
        get_frame_title docTitle f = some seg) ∧
      (¬(pyTruthyOpt docTitle = true ∧ f.titlepage = true) → f.args = [] →
        f.frametitle = some [] → get_frame_title docTitle f = none) ∧
      (¬(pyTruthyOpt docTitle = true ∧ f.titlepage = true) → f.args = [] →
        f.frametitle = none → get_frame_title docTitle f = none) := by
  refine ⟨fun h1 h2 => ?_, fun s rest hn ha hm => ?_, fun s rest hn ha hm => ?_,
    fun rest hn ha => ?_, fun seg segs hn ha hf => ?_, fun hn ha hf => ?_,
    fun hn ha hf => ?_⟩
  · rw [get_frame_title, if_pos ⟨h1, h2⟩]
  · rw [get_frame_title, if_neg hn, ha]
    simp [hm]
  · rw [get_frame_title, if_neg hn, ha]
    simp [hm]
  · rw [get_frame_title, if_neg hn, ha]
  · rw [get_frame_title, if_neg hn, ha, hf]
  · rw [get_frame_title, if_neg hn, ha, hf]
  · rw [get_frame_title, if_neg hn, ha, hf]

/-- Claim C7 witness: the title-page frame of a titled document resolves to
the document title; a frame whose only argument is the plain string `"My
frame"` resolves to that string. -/
theorem c7_frame_title_witness :
    get_frame_title (some "T") ⟨true, [], none⟩ = some "T" ∧
      get_frame_title none ⟨false, [some "My frame"], none⟩ = some "My frame" := by
  constructor
  · exact (c7_frame_title (some "T") ⟨true, [], none⟩).1 (by decide) rfl
  · exact (c7_frame_title none ⟨false, [some "My frame"], none⟩).2.1 "My frame" []
      (by simp [pyTruthyOpt]) rfl (by decide)

theorem sectionsStep_stop (st : SState) (stopName s₀ ser₀ : String)
    (hstop : stopName ∈ sectionStops) :
    sectionsStep st (DNode.tex stopName s₀ ser₀) = { st with parse := false } := by
  have h3 : stopName = "bibliography" ∨ stopName = "bibliographystyle" ∨
      stopName = "appendix" := by
    simpa [sectionStops] using hstop
  rcases h3 with rfl | rfl | rfl <;>
    rcases st with ⟨ss, p, s1, s2⟩ <;> cases p <;>
      simp +decide [sectionsStep, isTexNamed, sectionLabels, sectionSymbols,
        sectionStops]

theorem sectionsStep_skip (st : SState) (n : DNode) (hp : st.parse = false)
    (hn : isTexNamed n "section" = false) :
    sectionsStep st n = st := by
  rw [sectionsStep.eq_def]
  simp [hn, hp]

theorem foldl_sectionsStep_skip (st : SState) (hp : st.parse = false) :
    ∀ mid : List DNode, (∀ n ∈ mid, isTexNamed n "section" = false) →
      List.foldl sectionsStep st mid = st := by
  intro mid
  induction mid with
  | nil => intro _; rfl
  | cons hd tl ih =>
    intro h
    rw [List.foldl_cons, sectionsStep_skip st hd hp (h hd (by simp)),
      ih (fun n hn => h n (by simp [hn]))]

theorem sectionsStep_section (st : SState) (t ser : String) :
    sectionsStep st (DNode.tex "section" t ser) =
      ⟨st.sections ++ [⟨t, "", []⟩], true, true, false⟩ := by
  rcases st with ⟨ss, p, s1, s2⟩
  simp +decide [sectionsStep, isTexNamed]

/-- Claim C2 (amended): a `bibliography`, `bibliographystyle` or `appendix`
command stops parsing only until the next `section` command, which re-enables
it: the scan from any state over the stop command, any stretch of
section-free nodes, a `section` command and a remainder equals the scan that
skips directly to the `section` command.  Content strictly between the stop
command and the next `section` is excluded, but later sections are still
collected (so `\\section{A}...\\bibliography{refs}\\section{B}` yields two
sections, not one — see the counterexample). -/
theorem c2_section_scan (st : SState) (stopName s₀ ser₀ : String)
    (mid : List DNode) (t ser : String) (post : List DNode)
    (hstop : stopName ∈ sectionStops)
    (hmid : ∀ n ∈ mid, isTexNamed n "section" = false) :
    List.foldl sectionsStep st
        (DNode.tex stopName s₀ ser₀ :: (mid ++ DNode.tex "section" t ser :: post)) =
      List.foldl sectionsStep st (DNode.tex "section" t ser :: post) := by
  rw [List.foldl_cons, sectionsStep_stop st stopName s₀ ser₀ hstop,
    show mid ++ DNode.tex "section" t ser :: post =
      mid ++ (DNode.tex "section" t ser :: post) from rfl,
    List.foldl_append,
    foldl_sectionsStep_skip { st with parse := false } rfl mid hmid,
    List.foldl_cons, List.foldl_cons, sectionsStep_section, sectionsStep_section]

/-- Claim C2 witness: the amended theorem applied to the empty starting state,
a `bibliography` stop, one skipped text node and a following section `B`. -/
theorem c2_section_scan_witness :
    List.foldl sectionsStep ⟨[], false, false, false⟩
        (DNode.tex "bibliography" "refs" "\\bibliography{refs}" ::
          ([DNode.str "x"] ++ DNode.tex "section" "B" "\\section{B}" :: [])) =
      List.foldl sectionsStep ⟨[], false, false, false⟩
        (DNode.tex "section" "B" "\\section{B}" :: []) :=
  c2_section_scan ⟨[], false, false, false⟩ "bibliography" "refs"
    "\\bibliography{refs}" [DNode.str "x"] "B" "\\section{B}" []
    (by decide) (by decide)

/-- Claim C2 counterexample: the descendant stream of a document
`\\section{A} ... \\bibliography{refs} \\section{B}` yields two sections,
titled A and B — not exactly one section with B excluded. -/
theorem c2_section_scan_counterexample :
    (sectionsOf
        [DNode.tex "section" "A" "\\section{A}", DNode.str "A",
         DNode.str "body", DNode.tex "bibliography" "refs" "\\bibliography{refs}",
         DNode.tex "section" "B" "\\section{B}", DNode.str "B"]).map
        (fun sec => sec.title) = ["A", "B"] ∧
      (sectionsOf
        [DNode.tex "section" "A" "\\section{A}", DNode.str "A",
         DNode.str "body", DNode.tex "bibliography" "refs" "\\bibliography{refs}",
         DNode.tex "section" "B" "\\section{B}", DNode.str "B"]).length ≠ 1 := by
  constructor <;> decide

theorem find?_map_comm (k : String) (f : String × List BNode → String × List BNode)
    (hkey : ∀ p : String × List BNode, ((f p).1 == k) = (p.1 == k)) :
    ∀ d : List (String × List BNode),
      List.find? (fun p => p.1 == k) (d.map f) =
        Option.map f (List.find? (fun p => p.1 == k) d) := by
  intro d
  induction d with
  | nil => rfl
  | cons hd tl ih =>
    rw [List.map_cons]
    simp only [List.find?]
    rw [hkey hd]
    cases hb : (hd.1 == k)
    · simpa using ih
    · rfl

theorem dictFind_dictAppend_self (d : List (String × List BNode)) (k : String)
    (n : BNode) :
    dictFind (dictAppend d k n) k = (dictFind d k).map (fun v => v ++ [n]) := by
  unfold dictFind dictAppend
  rw [find?_map_comm k _ (fun p => by by_cases h : (p.1 == k) = true <;> simp [h])]
  cases hf : List.find? (fun p => p.1 == k) d with
  | none => rfl
  | some p =>
    have hpk : p.1 = k := by have := List.find?_some hf; simpa using this
    simp [hpk]

theorem dictFind_dictAppend_ne (d : List (String × List BNode)) (k k' : String)
    (n : BNode) (h : k' ≠ k) :
    dictFind (dictAppend d k' n) k = dictFind d k := by
  unfold dictFind dictAppend
  rw [find?_map_comm k _ (fun p => by by_cases hp : (p.1 == k') = true <;> simp [hp])]
  cases hf : List.find? (fun p => p.1 == k) d with
  | none => rfl
  | some p =>
    have hpk : p.1 = k := by have := List.find?_some hf; simpa using this
    simp [hpk, Ne.symm h]

theorem dictFind_dictSet_ne (d : List (String × List BNode)) (k k' : String)
    (v : List BNode) (h : k' ≠ k) :
    dictFind (dictSet d k' v) k = dictFind d k := by
  unfold dictFind dictSet
  split
  · rw [find?_map_comm k _ (fun p => by
      by_cases hp : (p.1 == k') = true
      · have hpk : p.1 = k' := by simpa using hp
        simp [hp, hpk, h]
      · simp [hp])]
    cases hf : List.find? (fun p => p.1 == k) d with
    | none => rfl
    | some p =>
      have hpk : p.1 = k := by have := List.find?_some hf; simpa using this
      simp [hpk, Ne.symm h]
  · have hlast : ∀ dd : List (String × List BNode),
        List.find? (fun p => p.1 == k) (dd ++ [(k', v)]) =
          List.find? (fun p => p.1 == k) dd := by
      intro dd
      induction dd with
      | nil =>
        simp only [List.nil_append, List.find?]
        rw [show (k' == k) = false by simp [h]]
      | cons hd tl ih =>
        rw [List.cons_append]
        simp only [List.find?]
        cases hb : (hd.1 == k)
        · simpa using ih
        · rfl
    rw [hlast]

theorem find?_append_self (k : String) (v : List BNode) :
    ∀ d : List (String × List BNode),
      List.find? (fun p => p.1 == k) d = none →
      List.find? (fun p => p.1 == k) (d ++ [(k, v)]) = some (k, v) := by
  intro d
  induction d with
  | nil => intro _; simp [List.find?]
  | cons hd tl ih =>
    intro hn
    rw [List.cons_append]
    simp only [List.find?] at hn ⊢
    cases hb : (hd.1 == k)
    · rw [hb] at hn
      simpa using ih (by simpa using hn)
    · rw [hb] at hn
      simp at hn

theorem dictFind_dictSet_new (d : List (String × List BNode)) (k : String)
    (v : List BNode) (h : dictFind d k = none) :
    dictFind (dictSet d k v) k = some v := by
  have hnone : List.find? (fun p => p.1 == k) d = none := by
    unfold dictFind at h
    cases hf : List.find? (fun p => p.1 == k) d with
    | none => rfl
    | some p => rw [hf] at h; simp at h
  have hany : (d.any (fun p => p.1 == k)) = false := by
    rw [List.find?_eq_none] at hnone
    rw [List.any_eq_false]
    intro p hp
    exact fun hb => hnone p hp hb
  unfold dictFind dictSet
  rw [if_neg (by rw [hany]; exact Bool.false_ne_true)]
  rw [find?_append_self k v d hnone]
  rfl

theorem bibitemsStep_bib (st : BState) (n : BNode) (hb : isBibitem n = true) :
    bibitemsStep st n =
      ⟨dictAppend (dictSet st.items (bibKey n) [n]) (bibKey n) n, true, bibKey n⟩ := by
  simp [bibitemsStep, hb]

theorem bibitemsStep_nonbib_parse (st : BState) (n : BNode)
    (hb : isBibitem n = false) (hp : st.startParse = true) :
    bibitemsStep st n = { st with items := dictAppend st.items st.key n } := by
  simp [bibitemsStep, hb, hp]

theorem bibitemsStep_nonbib_idle (st : BState) (n : BNode)
    (hb : isBibitem n = false) (hp : st.startParse = false) :
    bibitemsStep st n = st := by
  simp [bibitemsStep, hb, hp]

theorem bibitems_preserve (k : String) :
    ∀ (nodes : List BNode) (st : BState),
      (st.startParse = true → st.key ≠ k) →
      (∀ n ∈ nodes, isBibitem n = true → bibKey n ≠ k) →
      dictFind (List.foldl bibitemsStep st nodes).items k = dictFind st.items k ∧
        ((List.foldl bibitemsStep st nodes).startParse = true →
          (List.foldl bibitemsStep st nodes).key ≠ k) := by
  intro nodes
  induction nodes with
  | nil => intro st h1 _; exact ⟨rfl, h1⟩
  | cons n rest ih =>
    intro st h1 h2
    rw [List.foldl_cons]
    by_cases hb : isBibitem n = true
    · have hk' : bibKey n ≠ k := h2 n (by simp) hb
      rw [bibitemsStep_bib st n hb]
      obtain ⟨ha, hinv⟩ := ih ⟨dictAppend (dictSet st.items (bibKey n) [n])
          (bibKey n) n, true, bibKey n⟩ (fun _ => hk')
        (fun m hm => h2 m (by simp [hm]))
      refine ⟨?_, hinv⟩
      rw [ha]
      show dictFind (dictAppend (dictSet st.items (bibKey n) [n]) (bibKey n) n) k
          = dictFind st.items k
      rw [dictFind_dictAppend_ne _ _ _ _ hk', dictFind_dictSet_ne _ _ _ _ hk']
    · have hb' : isBibitem n = false := by simpa using hb
      cases hp : st.startParse
      · rw [bibitemsStep_nonbib_idle st n hb' hp]
        exact ih st h1 (fun m hm => h2 m (by simp [hm]))
      · rw [bibitemsStep_nonbib_parse st n hb' hp]
        have hkne : st.key ≠ k := h1 hp
        obtain ⟨ha, hinv⟩ := ih { st with items := dictAppend st.items st.key n }
          (fun _ => hkne) (fun m hm => h2 m (by simp [hm]))
        refine ⟨?_, hinv⟩
        rw [ha]
        show dictFind (dictAppend st.items st.key n) k = dictFind st.items k
        rw [dictFind_dictAppend_ne _ _ _ _ hkne]

theorem bibitems_grow (k : String) :
    ∀ (mid : List BNode) (st : BState), st.startParse = true → st.key = k →
      (∀ n ∈ mid, isBibitem n = false) →
      dictFind (List.foldl bibitemsStep st mid).items k
          = (dictFind st.items k).map (fun v => v ++ mid) ∧
        (List.foldl bibitemsStep st mid).startParse = true ∧
        (List.foldl bibitemsStep st mid).key = k := by
  intro mid
  induction mid with
  | nil =>
    intro st hp hk _
    refine ⟨?_, hp, hk⟩
    rw [List.foldl_nil]
    cases h : dictFind st.items k <;> simp [h]
  | cons n rest ih =>
    intro st hp hk hall
    rw [List.foldl_cons, bibitemsStep_nonbib_parse st n (hall n (by simp)) hp]
    obtain ⟨h1, h2, h3⟩ := ih { st with items := dictAppend st.items st.key n }
      hp hk (fun m hm => hall m (by simp [hm]))
    refine ⟨?_, h2, h3⟩
    rw [h1]
    show (dictFind (dictAppend st.items st.key n) k).map _ = _
    rw [hk, dictFind_dictAppend_self]
    cases dictFind st.items k <;> simp

/-- Claim C9 (amended): for a bibliography whose node stream contains a single
`bibitem` tagged `k`, followed by the stretch `mid` of non-bibitem nodes up to
the next `bibitem` (or the end), the `bibitems` mapping sends `k` to the
`bibitem` node twice followed by `mid` — the tagging `bibitem` node is
duplicated at the head of its own sequence, and the sequence stops before the
next `bibitem`. -/
theorem c9_bibitems (k : String) (pre mid post : List BNode)
    (hpre : ∀ n ∈ pre, isBibitem n = true → bibKey n ≠ k)
    (hmid : ∀ n ∈ mid, isBibitem n = false)
    (hpost : ∀ n ∈ post, isBibitem n = true → bibKey n ≠ k)
    (hpostshape : post = [] ∨ ∃ k₂ rest, post = BNode.node "bibitem" k₂ :: rest) :
    dictFind (bibitems (pre ++ BNode.node "bibitem" k :: (mid ++ post))) k =
      some (BNode.node "bibitem" k :: BNode.node "bibitem" k :: mid) := by
  unfold bibitems
  obtain ⟨hfind₀, -⟩ := bibitems_preserve k pre ⟨[], false, ""⟩
    (fun hfalse => absurd hfalse (by simp)) hpre
  have hb : isBibitem (BNode.node "bibitem" k) = true := rfl
  rw [List.foldl_append, List.foldl_cons, bibitemsStep_bib _ _ hb,
    List.foldl_append]
  have hmidfind : dictFind
      (dictAppend (dictSet (List.foldl bibitemsStep ⟨[], false, ""⟩ pre).items
        (bibKey (BNode.node "bibitem" k)) [BNode.node "bibitem" k])
        (bibKey (BNode.node "bibitem" k)) (BNode.node "bibitem" k)) k
      = some [BNode.node "bibitem" k, BNode.node "bibitem" k] := by
    show dictFind (dictAppend (dictSet _ k [BNode.node "bibitem" k]) k
      (BNode.node "bibitem" k)) k = _
    rw [dictFind_dictAppend_self, dictFind_dictSet_new _ _ _ (by rw [hfind₀]; rfl)]
    rfl
  obtain ⟨hg1, hg2, hg3⟩ := bibitems_grow k mid
    ⟨dictAppend (dictSet (List.foldl bibitemsStep ⟨[], false, ""⟩ pre).items
        (bibKey (BNode.node "bibitem" k)) [BNode.node "bibitem" k])
      (bibKey (BNode.node "bibitem" k)) (BNode.node "bibitem" k), true,
      bibKey (BNode.node "bibitem" k)⟩ rfl rfl hmid
  rcases hpostshape with rfl | ⟨k₂, rest, rfl⟩
  · rw [List.foldl_nil, hg1, hmidfind]
    rfl
  · have hk₂ : k₂ ≠ k := by
      have := hpost (BNode.node "bibitem" k₂) (by simp) rfl
      simpa [bibKey] using this
    rw [List.foldl_cons, bibitemsStep_bib _ (BNode.node "bibitem" k₂) rfl]
    obtain ⟨hp1, -⟩ := bibitems_preserve k rest
      ⟨dictAppend (dictSet (List.foldl bibitemsStep _ mid).items
          (bibKey (BNode.node "bibitem" k₂)) [BNode.node "bibitem" k₂])
        (bibKey (BNode.node "bibitem" k₂)) (BNode.node "bibitem" k₂), true,
        bibKey (BNode.node "bibitem" k₂)⟩ (fun _ => hk₂)
      (fun n hn hbn => hpost n (by simp [hn]) hbn)
    rw [hp1]
    show dictFind (dictAppend (dictSet _ k₂ [BNode.node "bibitem" k₂]) k₂
      (BNode.node "bibitem" k₂)) k = _
    rw [dictFind_dictAppend_ne _ _ _ _ hk₂, dictFind_dictSet_ne _ _ _ _ hk₂,
      hg1, hmidfind]
    rfl

/-- Claim C9 witness: a bibliography `[\\bibitem{k1}, text]` maps `k1` to the
bibitem node twice followed by the text node. -/
theorem c9_bibitems_witness :
    dictFind (bibitems ([] ++ BNode.node "bibitem" "k1" ::
        ([BNode.text "a"] ++ []))) "k1" =
      some [BNode.node "bibitem" "k1", BNode.node "bibitem" "k1",
        BNode.text "a"] :=
  c9_bibitems "k1" [] [BNode.text "a"] []
    (fun n hn => absurd hn (List.not_mem_nil n))
    (by intro n hn; rw [List.mem_singleton] at hn; rw [hn]; rfl)
    (fun n hn => absurd hn (List.not_mem_nil n))
    (Or.inl rfl)

/-- Claim C9 counterexample: for the bibliography stream
`[\\bibitem{k1}, text a, \\bibitem{k2}, text b]` the entry for `k1` is the
`bibitem` node twice followed by the text node — not the sequence of nodes
following the bibitem (`[text a]`), and the tagging node is duplicated. -/
theorem c9_bibitems_counterexample :
    bibitems [BNode.node "bibitem" "k1", BNode.text "a",
        BNode.node "bibitem" "k2", BNode.text "b"] =
      [("k1", [BNode.node "bibitem" "k1", BNode.node "bibitem" "k1",
          BNode.text "a"]),
       ("k2", [BNode.node "bibitem" "k2", BNode.node "bibitem" "k2",
          BNode.text "b"])] ∧
      dictFind (bibitems [BNode.node "bibitem" "k1", BNode.text "a",
          BNode.node "bibitem" "k2", BNode.text "b"]) "k1"
        ≠ some [BNode.text "a"] ∧
      dictFind (bibitems [BNode.node "bibitem" "k1", BNode.text "a",
          BNode.node "bibitem" "k2", BNode.text "b"]) "k1"
        ≠ some [BNode.node "bibitem" "k1", BNode.text "a"] := by
  refine ⟨by decide, by decide, by decide⟩

theorem resolvePassList_append (rf : String → Option (List LNode))
    (kind cwd : String) :
    ∀ l₁ l₂ : List LNode,
      resolvePassList rf kind cwd (l₁ ++ l₂) = (do
        let a ← resolvePassList rf kind cwd l₁
        let b ← resolvePassList rf kind cwd l₂
        some (a ++ b)) := by
  intro l₁ l₂
  induction l₁ with
  | nil =>
    rw [List.nil_append]
    cases h : resolvePassList rf kind cwd l₂ <;> simp [resolvePassList, h]
  | cons hd tl ih =>
    rw [List.cons_append]
    simp only [resolvePassList, ih]
    cases h : resolvePassNode rf kind cwd hd with
    | none => rfl
    | some rs =>
      cases h2 : resolvePassList rf kind cwd tl with
      | none => rfl
      | some a =>
        cases h3 : resolvePassList rf kind cwd l₂ with
        | none => rfl
        | some b => simp [List.append_assoc]

/-- Claim C6: in every resolution pass, a resolved `subimport`, `import` or
`include` directive is replaced by splicing the referenced file's resolved
child contents directly into the parent at that position, whereas a resolved
`input` directive is replaced by the resolved node itself (a single wrapper
node whose children are the resolved contents), not its children; the passes
recurse into environment children unchanged, so the same replacement applies
at any nesting depth. -/
theorem c6_resolve_asymmetry (rf : String → Option (List LNode)) (cwd : String) :
    (∀ pre post pre' post' a b rs,
      resolvePassList rf "subimport" cwd pre = some pre' →
      resolvePassList rf "subimport" cwd post = some post' →
      rf (a ++ b) = some rs →
      resolvePassList rf "subimport" cwd
          (pre ++ LNode.cmd "subimport" [a, b] :: post) =
        some (pre' ++ rs ++ post')) ∧
      (∀ pre post pre' post' fname rs,
        resolvePassList rf "import" cwd pre = some pre' →
        resolvePassList rf "import" cwd post = some post' →
        rf (check_filename fname) = some rs →
        resolvePassList rf "import" cwd
            (pre ++ LNode.cmd "import" [fname] :: post) =
          some (pre' ++ rs ++ post')) ∧
      (∀ pre post pre' post' fname rs,
        resolvePassList rf "include" cwd pre = some pre' →
        resolvePassList rf "include" cwd post = some post' →
        rf (check_filename fname) = some rs →
        resolvePassList rf "include" cwd
            (pre ++ LNode.cmd "include" [fname] :: post) =
          some (pre' ++ rs ++ post')) ∧
      (∀ pre post pre' post' fname rs,
        resolvePassList rf "input" cwd pre = some pre' →
        resolvePassList rf "input" cwd post = some post' →
        rf (joinPath cwd (check_filename fname)) = some rs →
        resolvePassList rf "input" cwd
            (pre ++ LNode.cmd "input" [fname] :: post) =
          some (pre' ++ LNode.root rs :: post')) ∧
      (∀ kind name children children',
        resolvePassList rf kind cwd children = some children' →
        resolvePassNode rf kind cwd (LNode.env name children) =
          some [LNode.env name children']) := by
  refine ⟨fun pre post pre' post' a b rs hpre hpost hrf => ?_,
    fun pre post pre' post' fname rs hpre hpost hrf => ?_,
    fun pre post pre' post' fname rs hpre hpost hrf => ?_,
    fun pre post pre' post' fname rs hpre hpost hrf => ?_,
    fun kind name children children' hch => ?_⟩
  · rw [resolvePassList_append rf "subimport" cwd pre
      (LNode.cmd "subimport" [a, b] :: post), hpre]
    simp +decide [resolvePassList, resolvePassNode, hrf, hpost, List.append_assoc]
  · rw [resolvePassList_append rf "import" cwd pre
      (LNode.cmd "import" [fname] :: post), hpre]
    simp +decide [resolvePassList, resolvePassNode, hrf, hpost, List.append_assoc]
  · rw [resolvePassList_append rf "include" cwd pre
      (LNode.cmd "include" [fname] :: post), hpre]
    simp +decide [resolvePassList, resolvePassNode, hrf, hpost, List.append_assoc]
  · rw [resolvePassList_append rf "input" cwd pre
      (LNode.cmd "input" [fname] :: post), hpre]
    simp +decide [resolvePassList, resolvePassNode, hrf, hpost, List.append_assoc]
  · simp [resolvePassNode, hch]

/-- Claim C6 witness: with a one-file system resolving every path to a single
text node, an `include` directive splices the text node in place while an
`input` directive leaves a wrapper node around it. -/
theorem c6_resolve_asymmetry_witness :
    resolvePassList (fun _ => some [LNode.text "T"]) "include" ""
        ([] ++ LNode.cmd "include" ["b"] :: []) =
      some ([] ++ [LNode.text "T"] ++ []) ∧
      resolvePassList (fun _ => some [LNode.text "T"]) "input" ""
          ([] ++ LNode.cmd "input" ["b"] :: []) =
        some ([] ++ LNode.root [LNode.text "T"] :: []) := by
  constructor
  · exact (c6_resolve_asymmetry (fun _ => some [LNode.text "T"]) "").2.2.1
      [] [] [] [] "b" [LNode.text "T"] rfl rfl rfl
  · exact (c6_resolve_asymmetry (fun _ => some [LNode.text "T"]) "").2.2.2.1
      [] [] [] [] "b" [LNode.text "T"] rfl rfl rfl

/-- Claim C1 (amended): the construction-time deduplication pass deletes frame
`k` exactly when a frame follows it, frame `k` has at least one token, and at
least 90% of frame `k`'s tokens (with multiplicity) occur among frame `k+1`'s
tokens; a frame with no successor is always retained.  The later frame of a
below-threshold pair may still be deleted by the comparison with its own
successor. -/
theorem c1_dedup_threshold (frames : List (List String)) (k : ℕ) :
    (∀ a b, frames.get? k = some a → frames.get? (k + 1) = some b →
      (k ∈ removeSequentialFramesDeleted (9 / 10) frames ↔
        0 < a.length ∧ 9 * a.length ≤ 10 * (commonContent a b).length)) ∧
    (frames.get? (k + 1) = none →
      k ∉ removeSequentialFramesDeleted (9 / 10) frames) := by
  constructor
  · intro a b ha hb
    rw [mem_removeSequentialFramesDeleted, ← delCond_nine_tenths a b]
    constructor
    · rintro ⟨a', b', ha', hb', hc⟩
      rw [ha] at ha'
      rw [hb] at hb'
      obtain rfl : a = a' := by simpa using ha'
      obtain rfl : b = b' := by simpa using hb'
      exact hc
    · intro hc
      exact ⟨a, b, ha, hb, hc⟩
  · intro hnone hmem
    rw [mem_removeSequentialFramesDeleted] at hmem
    obtain ⟨a, b, -, hb, -⟩ := hmem
    rw [hnone] at hb
    exact Option.noConfusion hb

/-- Claim C1 witness: in the spec's boundary example (frame 0 has ten tokens,
frame 1 shares nine of them), the overlap ratio is exactly 0.9 and frame 0 is
deleted. -/
theorem c1_dedup_threshold_witness :
    0 ∈ removeSequentialFramesDeleted (9 / 10)
      [["a", "b", "c", "d", "e", "f", "g", "h", "i", "j"],
       ["a", "b", "c", "d", "e", "f", "g", "h", "i", "k"]] :=
  ((c1_dedup_threshold
      [["a", "b", "c", "d", "e", "f", "g", "h", "i", "j"],
       ["a", "b", "c", "d", "e", "f", "g", "h", "i", "k"]] 0).1
    ["a", "b", "c", "d", "e", "f", "g", "h", "i", "j"]
    ["a", "b", "c", "d", "e", "f", "g", "h", "i", "k"] rfl rfl).mpr
    (by constructor <;> decide)

/-- Claim C1 counterexample: with frames `[["x"], ["y"], ["y"]]` the pair
(frame 0, frame 1) has overlap ratio 0 < 0.9, yet frame 1 is not retained —
it is deleted by the comparison with frame 2 — contradicting the claim that a
below-threshold pair leaves both frames retained. -/
theorem c1_dedup_counterexample :
    ((commonContent ["x"] ["y"]).length : ℚ) / ((["x"] : List String).length : ℚ)
        < 9 / 10 ∧
      removeSequentialFramesDeleted (9 / 10) [["x"], ["y"], ["y"]] = [1] ∧
      (removeSequentialFramesKept (9 / 10) [["x"], ["y"], ["y"]]).map Prod.fst
        = [0, 2] := by
  have hxy : ¬ delCond (9 / 10) ["x"] ["y"] := by
    rw [delCond_nine_tenths]; decide
  have hyy : delCond (9 / 10) ["y"] ["y"] := by
    rw [delCond_nine_tenths]; decide
  have hdel : removeSequentialFramesDeleted (9 / 10) [["x"], ["y"], ["y"]] = [1] := by
    simp [removeSequentialFramesDeleted, rsfAux, List.enumFrom, hxy, hyy]
  refine ⟨?_, hdel, ?_⟩
  · have h0 : commonContent ["x"] ["y"] = [] := by decide
    rw [h0]
    norm_num
  · rw [removeSequentialFramesKept, hdel]
    decide

/-- Claim C8 (amended): the cleaner keeps exactly those lines that do not have
the comment marker `%` as their very first character (a `%` preceded by spaces
does not cause the line to be dropped) and that are nonempty after stripping
leading and trailing whitespace; each kept line is stripped and its interior
space runs are collapsed to single spaces, and the relative order of kept
lines is preserved. -/
theorem c8_clean_lines (lines : List String) :
    cleanLines lines =
      (lines.filter
          (fun l => !(pyStartsWith l "%") && decide (0 < (pyStrip l).length))).map
        (fun l => collapseSpacesStr (pyStrip l)) := by
  simp only [cleanLines, List.filter_map, List.filter_filter, List.map_map,
    Function.comp, Bool.and_comm]
  rfl

/-- Claim C8 counterexample: the line `"  %x"` has `%` as its first non-space
character, so the claim says it is dropped; `clean_texfile` keeps it (stripped
to `"%x"`). -/
theorem c8_clean_counterexample :
    pyStartsWith (pyStrip "  %x") "%" = true ∧
      clean_texfile "  %x" = "%x" ∧ "%x" ≠ "" := by
  refine ⟨by decide, by decide, by decide⟩

end Tex2Beam
